import Mathlib

/-!
Shallow embedding of the UTF-8 transcoding and validation library in
`src/utf8.h` (the `utf8::` namespace).  Byte buffers are modelled as
`List Nat`; iterators into a buffer become indices, an exclusive end bound
is an index `e`, and a read of `*it` becomes `buf[it]?`.  A result of
`none` marks a read outside the physical buffer (undefined behaviour in
the C++ source); `some` carries the value the source computes.  Machine
integer casts are modelled with explicit `% 2 ^ w`.  Loops in the source
are modelled with an explicit fuel argument whose exhaustion also yields
`none`; every top-level wrapper supplies sufficient fuel.  Local variables
that the source mutates through references become explicit extra return
components (the updated iterator and the updated `code_point`
out-parameter), and `let` temporaries are inlined.
-/

namespace utf8

/-- Unicode constants from `utf8::internal`. -/
def LEAD_SURROGATE_MIN : Nat := 0xd800

def LEAD_SURROGATE_MAX : Nat := 0xdbff

def TRAIL_SURROGATE_MIN : Nat := 0xdc00

def TRAIL_SURROGATE_MAX : Nat := 0xdfff

/-- `LEAD_OFFSET = LEAD_SURROGATE_MIN - (0x10000 >> 10)`; no wraparound. -/
def LEAD_OFFSET : Nat := LEAD_SURROGATE_MIN - (0x10000 >>> 10)

/-- `SURROGATE_OFFSET = 0x10000u - (LEAD_SURROGATE_MIN << 10) - TRAIL_SURROGATE_MIN`
computed in `uint32_t` arithmetic, which wraps modulo `2 ^ 32`. -/
def SURROGATE_OFFSET : Nat :=
  ((0x10000 - (LEAD_SURROGATE_MIN <<< 10 : Int) - TRAIL_SURROGATE_MIN) % (2 ^ 32 : Int)).toNat

def CODE_POINT_MAX : Nat := 0x0010ffff

/-- `mask8`: truncate to the low 8 bits (`0xff & oc`). -/
def mask8 (oc : Nat) : Nat := 0xff &&& oc

/-- `mask16`: truncate to the low 16 bits (`0xffff & oc`). -/
def mask16 (oc : Nat) : Nat := 0xffff &&& oc

/-- `is_trail`: the continuation-byte test `(mask8(oc) >> 6) == 0x2`. -/
def is_trail (oc : Nat) : Bool := (mask8 oc) >>> 6 == 0x2

def is_lead_surrogate (cp : Nat) : Bool :=
  decide (LEAD_SURROGATE_MIN ≤ cp) && decide (cp ≤ LEAD_SURROGATE_MAX)

def is_trail_surrogate (cp : Nat) : Bool :=
  decide (TRAIL_SURROGATE_MIN ≤ cp) && decide (cp ≤ TRAIL_SURROGATE_MAX)

def is_surrogate (cp : Nat) : Bool :=
  decide (LEAD_SURROGATE_MIN ≤ cp) && decide (cp ≤ TRAIL_SURROGATE_MAX)

def is_code_point_valid (cp : Nat) : Bool :=
  decide (cp ≤ CODE_POINT_MAX) && !is_surrogate cp

/-- `sequence_length` applied to the (already read) lead octet value. -/
def sequence_length (lead_octet : Nat) : Nat :=
  if mask8 lead_octet < 0x80 then 1
  else if mask8 lead_octet >>> 5 = 0x6 then 2
  else if mask8 lead_octet >>> 4 = 0xe then 3
  else if mask8 lead_octet >>> 3 = 0x1e then 4
  else 0

def is_overlong_sequence (cp : Nat) (length : Nat) : Bool :=
  if cp < 0x80 then
    if length ≠ 1 then true else false
  else if cp < 0x800 then
    if length ≠ 2 then true else false
  else if cp < 0x10000 then
    if length ≠ 3 then true else false
  else false

inductive utf_error where
  | UTF8_OK
  | NOT_ENOUGH_ROOM
  | INVALID_LEAD
  | INCOMPLETE_SEQUENCE
  | OVERLONG_SEQUENCE
  | INVALID_CODE_POINT
deriving DecidableEq, Repr

open utf_error

/-- `increase_safely`: advance the iterator, requiring it not to hit `end`
and the new octet to pass the continuation-byte test.  Returns the error
code and the updated iterator. -/
def increase_safely (buf : List Nat) (e it : Nat) : Option (utf_error × Nat) :=
  if it + 1 = e then some (NOT_ENOUGH_ROOM, it + 1)
  else
    match buf[it + 1]? with
    | none => none
    | some b =>
      if !is_trail b then some (INCOMPLETE_SEQUENCE, it + 1)
      else some (UTF8_OK, it + 1)

/-- `get_sequence_1`: returns the error code, the updated iterator and the
updated `code_point` out-parameter. -/
def get_sequence_1 (buf : List Nat) (e it code_point : Nat) :
    Option (utf_error × Nat × Nat) :=
  if it = e then some (NOT_ENOUGH_ROOM, it, code_point)
  else
    match buf[it]? with
    | none => none
    | some b0 => some (UTF8_OK, it, mask8 b0)

def get_sequence_2 (buf : List Nat) (e it code_point : Nat) :
    Option (utf_error × Nat × Nat) :=
  if it = e then some (NOT_ENOUGH_ROOM, it, code_point)
  else
    match buf[it]? with
    | none => none
    | some b0 =>
      match increase_safely buf e it with
      | none => none
      | some (ret, it1) =>
        if ret ≠ UTF8_OK then some (ret, it1, mask8 b0)
        else
          match buf[it1]? with
          | none => none
          | some b1 =>
            some (UTF8_OK, it1, ((mask8 b0 <<< 6) &&& 0x7ff) + (b1 &&& 0x3f))

def get_sequence_3 (buf : List Nat) (e it code_point : Nat) :
    Option (utf_error × Nat × Nat) :=
  if it = e then some (NOT_ENOUGH_ROOM, it, code_point)
  else
    match buf[it]? with
    | none => none
    | some b0 =>
      match increase_safely buf e it with
      | none => none
      | some (ret, it1) =>
        if ret ≠ UTF8_OK then some (ret, it1, mask8 b0)
        else
          match buf[it1]? with
          | none => none
          | some b1 =>
            match increase_safely buf e it1 with
            | none => none
            | some (ret, it2) =>
              if ret ≠ UTF8_OK then
                some (ret, it2, ((mask8 b0 <<< 12) &&& 0xffff) + ((mask8 b1 <<< 6) &&& 0xfff))
              else
                match buf[it2]? with
                | none => none
                | some b2 =>
                  some (UTF8_OK, it2,
                    ((mask8 b0 <<< 12) &&& 0xffff) + ((mask8 b1 <<< 6) &&& 0xfff) + (b2 &&& 0x3f))

def get_sequence_4 (buf : List Nat) (e it code_point : Nat) :
    Option (utf_error × Nat × Nat) :=
  if it = e then some (NOT_ENOUGH_ROOM, it, code_point)
  else
    match buf[it]? with
    | none => none
    | some b0 =>
      match increase_safely buf e it with
      | none => none
      | some (ret, it1) =>
        if ret ≠ UTF8_OK then some (ret, it1, mask8 b0)
        else
          match buf[it1]? with
          | none => none
          | some b1 =>
            match increase_safely buf e it1 with
            | none => none
            | some (ret, it2) =>
              if ret ≠ UTF8_OK then
                some (ret, it2, ((mask8 b0 <<< 18) &&& 0x1fffff) + ((mask8 b1 <<< 12) &&& 0x3ffff))
              else
                match buf[it2]? with
                | none => none
                | some b2 =>
                  match increase_safely buf e it2 with
                  | none => none
                  | some (ret, it3) =>
                    if ret ≠ UTF8_OK then
                      some (ret, it3,
                        ((mask8 b0 <<< 18) &&& 0x1fffff) + ((mask8 b1 <<< 12) &&& 0x3ffff)
                          + ((mask8 b2 <<< 6) &&& 0xfff))
                    else
                      match buf[it3]? with
                      | none => none
                      | some b3 =>
                        some (UTF8_OK, it3,
                          ((mask8 b0 <<< 18) &&& 0x1fffff) + ((mask8 b1 <<< 12) &&& 0x3ffff)
                            + ((mask8 b2 <<< 6) &&& 0xfff) + (b3 &&& 0x3f))

/-- The `switch (length)` dispatch in `validate_next`; the default case of
the source switch leaves `err = UTF8_OK`, the iterator and the
`code_point` local untouched. -/
def get_sequence (length : Nat) (buf : List Nat) (e it code_point : Nat) :
    Option (utf_error × Nat × Nat) :=
  if length = 1 then get_sequence_1 buf e it code_point
  else if length = 2 then get_sequence_2 buf e it code_point
  else if length = 3 then get_sequence_3 buf e it code_point
  else if length = 4 then get_sequence_4 buf e it code_point
  else some (UTF8_OK, it, code_point)

/-- `validate_next(it, end, code_point)`: decode and validate one unit.
Returns the error code, the updated iterator and the updated `code_point`
out-parameter.  Note that the source dereferences the lead octet through
`sequence_length(it)` before any bounds check; on failure it restores the
iterator to `original_it`, which is the unchanged `it` here. -/
def validate_next (buf : List Nat) (e it code_point : Nat) :
    Option (utf_error × Nat × Nat) :=
  match buf[it]? with
  | none => none
  | some lead =>
    if sequence_length lead = 0 then some (INVALID_LEAD, it, code_point)
    else
      match get_sequence (sequence_length lead) buf e it 0 with
      | none => none
      | some (err, it2, cp) =>
        if err = UTF8_OK then
          if is_code_point_valid cp then
            if !is_overlong_sequence cp (sequence_length lead) then
              some (UTF8_OK, it2 + 1, cp)
            else some (OVERLONG_SEQUENCE, it, code_point)
          else some (INVALID_CODE_POINT, it, code_point)
        else some (err, it, code_point)

/-- The two-argument overload of `validate_next`, whose `code_point`
out-parameter is a discarded local. -/
def validate_next2 (buf : List Nat) (e it : Nat) : Option (utf_error × Nat) :=
  match validate_next buf e it 0 with
  | none => none
  | some (err, it2, _) => some (err, it2)

/-- Loop of `find_invalid`, with explicit fuel. -/
def find_invalid_loop (fuel : Nat) (buf : List Nat) (e result : Nat) : Option Nat :=
  match fuel with
  | 0 => none
  | fuel + 1 =>
    if result = e then some result
    else
      match validate_next2 buf e result with
      | none => none
      | some (err, result2) =>
        if err ≠ UTF8_OK then some result
        else find_invalid_loop fuel buf e result2

def find_invalid (buf : List Nat) (e start : Nat) : Option Nat :=
  find_invalid_loop (e - start + 1) buf e start

def is_valid (buf : List Nat) (e start : Nat) : Option Bool :=
  (find_invalid buf e start).map (fun r => r == e)

/-- The exceptions thrown by the checked API. -/
inductive Utf8Exception where
  | not_enough_room
  | invalid_utf8 (octet : Nat)
  | invalid_code_point (cp : Nat)
  | invalid_utf16 (word : Nat)
deriving DecidableEq, Repr

/-- `utf8::append(cp, result)`: checked encoder.  The output iterator is
modelled as the list of octets written so far; each
`static_cast<uint8_t>` is an explicit `% 256`. -/
def append (cp : Nat) (result : List Nat) : Except Utf8Exception (List Nat) :=
  if !is_code_point_valid cp then .error (.invalid_code_point cp)
  else if cp < 0x80 then
    .ok (result ++ [cp % 256])
  else if cp < 0x800 then
    .ok (result ++ [((cp >>> 6) ||| 0xc0) % 256,
                    ((cp &&& 0x3f) ||| 0x80) % 256])
  else if cp < 0x10000 then
    .ok (result ++ [((cp >>> 12) ||| 0xe0) % 256,
                    (((cp >>> 6) &&& 0x3f) ||| 0x80) % 256,
                    ((cp &&& 0x3f) ||| 0x80) % 256])
  else
    .ok (result ++ [((cp >>> 18) ||| 0xf0) % 256,
                    (((cp >>> 12) &&& 0x3f) ||| 0x80) % 256,
                    (((cp >>> 6) &&& 0x3f) ||| 0x80) % 256,
                    ((cp &&& 0x3f) ||| 0x80) % 256])

/-- The verbatim copy loop in `replace_invalid`'s `UTF8_OK` branch:
`for (it = sequence_start; it != start; ++it) *out++ = *it`. -/
def copy_loop (fuel : Nat) (buf : List Nat) (i j : Nat) (out : List Nat) :
    Option (List Nat) :=
  match fuel with
  | 0 => none
  | fuel + 1 =>
    if i = j then some out
    else
      match buf[i]? with
      | none => none
      | some b => copy_loop fuel buf (i + 1) j (out ++ [b])

/-- The trailing-octet skip loop in `replace_invalid`:
`while (start != end && is_trail(*start)) ++start`. -/
def skip_trail_loop (fuel : Nat) (buf : List Nat) (e start : Nat) : Option Nat :=
  match fuel with
  | 0 => none
  | fuel + 1 =>
    if start = e then some start
    else
      match buf[start]? with
      | none => none
      | some b =>
        if is_trail b then skip_trail_loop fuel buf e (start + 1)
        else some start

/-- Loop of `replace_invalid(start, end, out, replacement)`. -/
def replace_invalid_loop (fuel : Nat) (buf : List Nat) (e start : Nat)
    (out : List Nat) (replacement : Nat) : Option (Except Utf8Exception (List Nat)) :=
  match fuel with
  | 0 => none
  | fuel + 1 =>
    if start = e then some (.ok out)
    else
      match validate_next2 buf e start with
      | none => none
      | some (err, start2) =>
        match err with
        | UTF8_OK =>
          match copy_loop (start2 - start + 1) buf start start2 out with
          | none => none
          | some out2 => replace_invalid_loop fuel buf e start2 out2 replacement
        | NOT_ENOUGH_ROOM => some (.error .not_enough_room)
        | INVALID_LEAD =>
          match append replacement out with
          | .error ex => some (.error ex)
          | .ok out2 => replace_invalid_loop fuel buf e (start + 1) out2 replacement
        | _ =>
          match append replacement out with
          | .error ex => some (.error ex)
          | .ok out2 =>
            match skip_trail_loop (e - (start + 1) + 1) buf e (start + 1) with
            | none => none
            | some start3 => replace_invalid_loop fuel buf e start3 out2 replacement

def replace_invalid (buf : List Nat) (e start : Nat) (out : List Nat)
    (replacement : Nat) : Option (Except Utf8Exception (List Nat)) :=
  replace_invalid_loop (e - start + 1) buf e start out replacement

/-- `utf8::next(it, end)`: checked decode of one code point, mapping error
codes to thrown exceptions.  On success returns the code point and the
advanced iterator. -/
def next (buf : List Nat) (e it : Nat) : Option (Except Utf8Exception (Nat × Nat)) :=
  match validate_next buf e it 0 with
  | none => none
  | some (err, it2, cp) =>
    match err with
    | UTF8_OK => some (.ok (cp, it2))
    | NOT_ENOUGH_ROOM => some (.error .not_enough_room)
    | INVALID_CODE_POINT => some (.error (.invalid_code_point cp))
    | _ =>
      match buf[it2]? with
      | none => none
      | some b => some (.error (.invalid_utf8 (mask8 b)))

/-- Loop of `utf8to16`: decode each code point with `next` and emit one
16-bit unit, or a surrogate pair for code points above `0xffff`.  Each
`static_cast<uint16_t>` is an explicit `% 65536`. -/
def utf8to16_loop (fuel : Nat) (buf : List Nat) (e start : Nat)
    (result : List Nat) : Option (Except Utf8Exception (List Nat)) :=
  match fuel with
  | 0 => none
  | fuel + 1 =>
    if start = e then some (.ok result)
    else
      match next buf e start with
      | none => none
      | some (.error ex) => some (.error ex)
      | some (.ok (cp, start2)) =>
        if cp > 0xffff then
          utf8to16_loop fuel buf e start2
            (result ++ [((cp >>> 10) + LEAD_OFFSET) % 65536,
                        ((cp &&& 0x3ff) + TRAIL_SURROGATE_MIN) % 65536])
        else
          utf8to16_loop fuel buf e start2 (result ++ [cp % 65536])

def utf8to16 (buf : List Nat) (e start : Nat) (result : List Nat) :
    Option (Except Utf8Exception (List Nat)) :=
  utf8to16_loop (e - start + 1) buf e start result

/-- One iteration of the `utf16to8(start, end, result)` while loop: like
the other converters the 16-bit input range is a buffer with a position
and an exclusive end bound.  `.ok` carries the advanced position and the
extended output; the combined surrogate-pair arithmetic is `uint32_t`,
hence the `% 2 ^ 32`, and each `static_cast<uint16_t>` is an explicit
`% 65536`. -/
def utf16to8_body (l : List Nat) (e start : Nat) (result : List Nat) :
    Option (Except Utf8Exception (Nat × List Nat)) :=
  match l[start]? with
  | none => none
  | some u =>
    if is_lead_surrogate (mask16 u) then
      if start + 1 ≠ e then
        match l[start + 1]? with
        | none => none
        | some t =>
          if is_trail_surrogate (mask16 t) then
            match append (((mask16 u <<< 10) + mask16 t + SURROGATE_OFFSET) % 2 ^ 32)
                result with
            | .error ex => some (.error ex)
            | .ok r => some (.ok (start + 2, r))
          else some (.error (.invalid_utf16 (mask16 t % 65536)))
      else some (.error (.invalid_utf16 (mask16 u % 65536)))
    else if is_trail_surrogate (mask16 u) then
      some (.error (.invalid_utf16 (mask16 u % 65536)))
    else
      match append (mask16 u) result with
      | .error ex => some (.error ex)
      | .ok r => some (.ok (start + 1, r))

/-- The `utf16to8` while loop, iterating `utf16to8_body` with fuel. -/
def utf16to8_loop (fuel : Nat) (l : List Nat) (e start : Nat) (result : List Nat) :
    Option (Except Utf8Exception (List Nat)) :=
  match fuel with
  | 0 => none
  | fuel + 1 =>
    if start = e then some (.ok result)
    else
      match utf16to8_body l e start result with
      | none => none
      | some (.error ex) => some (.error ex)
      | some (.ok (start2, result2)) => utf16to8_loop fuel l e start2 result2

def utf16to8 (l : List Nat) (e start : Nat) (result : List Nat) :
    Option (Except Utf8Exception (List Nat)) :=
  utf16to8_loop (e - start + 1) l e start result

/-! ### Arithmetic helper lemmas about the classifier -/

theorem mask8_eq (b : Nat) : mask8 b = b % 256 := by
  rw [mask8, Nat.and_comm]
  simpa using Nat.and_pow_two_sub_one_eq_mod b 8

theorem mask16_eq (b : Nat) : mask16 b = b % 65536 := by
  rw [mask16, Nat.and_comm]
  simpa using Nat.and_pow_two_sub_one_eq_mod b 16

theorem and_3f (x : Nat) : x &&& 0x3f = x % 64 := by
  simpa using Nat.and_pow_two_sub_one_eq_mod x 6

theorem and_3ff (x : Nat) : x &&& 0x3ff = x % 1024 := by
  simpa using Nat.and_pow_two_sub_one_eq_mod x 10

theorem and_7ff (x : Nat) : x &&& 0x7ff = x % 2048 := by
  simpa using Nat.and_pow_two_sub_one_eq_mod x 11

theorem and_fff (x : Nat) : x &&& 0xfff = x % 4096 := by
  simpa using Nat.and_pow_two_sub_one_eq_mod x 12

theorem and_ffff (x : Nat) : x &&& 0xffff = x % 65536 := by
  simpa using Nat.and_pow_two_sub_one_eq_mod x 16

theorem and_3ffff (x : Nat) : x &&& 0x3ffff = x % 262144 := by
  simpa using Nat.and_pow_two_sub_one_eq_mod x 18

theorem and_1fffff (x : Nat) : x &&& 0x1fffff = x % 2097152 := by
  simpa using Nat.and_pow_two_sub_one_eq_mod x 21

theorem lor_c0 : ∀ x, x < 32 → x ||| 0xc0 = 0xc0 + x := by decide

theorem lor_80 : ∀ x, x < 64 → x ||| 0x80 = 0x80 + x := by decide

theorem lor_e0 : ∀ x, x < 16 → x ||| 0xe0 = 0xe0 + x := by decide

theorem lor_f0 : ∀ x, x < 8 → x ||| 0xf0 = 0xf0 + x := by decide

set_option maxRecDepth 8192 in
theorem seq_len_char : ∀ b, b < 256 →
    (sequence_length b = 1 ↔ b < 0x80) ∧
    (sequence_length b = 2 ↔ 0xc0 ≤ b ∧ b ≤ 0xdf) ∧
    (sequence_length b = 3 ↔ 0xe0 ≤ b ∧ b ≤ 0xef) ∧
    (sequence_length b = 4 ↔ 0xf0 ≤ b ∧ b ≤ 0xf7) := by decide

theorem seq_len_mod (b : Nat) : sequence_length b = sequence_length (b % 256) := by
  unfold sequence_length
  rw [mask8_eq, mask8_eq, Nat.mod_mod_of_dvd _ dvd_rfl]

set_option maxRecDepth 8192 in
theorem seq_len_le_4 (b : Nat) : sequence_length b ≤ 4 := by
  rw [seq_len_mod]
  have h : ∀ c, c < 256 → sequence_length c ≤ 4 := by decide
  exact h _ (Nat.mod_lt _ (by omega))

set_option maxRecDepth 8192 in
theorem is_trail_char : ∀ b, b < 256 → (is_trail b = true ↔ 0x80 ≤ b ∧ b ≤ 0xbf) := by decide

theorem is_trail_mod (b : Nat) : is_trail b = is_trail (b % 256) := by
  unfold is_trail
  rw [mask8_eq, mask8_eq, Nat.mod_mod_of_dvd _ dvd_rfl]

theorem is_code_point_valid_iff (cp : Nat) :
    is_code_point_valid cp = true ↔ cp ≤ 0x10ffff ∧ ¬(0xd800 ≤ cp ∧ cp ≤ 0xdfff) := by
  simp [is_code_point_valid, is_surrogate, CODE_POINT_MAX, LEAD_SURROGATE_MIN,
    TRAIL_SURROGATE_MAX, imp_iff_not_or]

theorem shl6 (x : Nat) : x <<< 6 = x * 64 := by
  rw [Nat.shiftLeft_eq]

theorem shl10 (x : Nat) : x <<< 10 = x * 1024 := by
  rw [Nat.shiftLeft_eq]

theorem shl12 (x : Nat) : x <<< 12 = x * 4096 := by
  rw [Nat.shiftLeft_eq]

theorem shl18 (x : Nat) : x <<< 18 = x * 262144 := by
  rw [Nat.shiftLeft_eq]

theorem shr6 (x : Nat) : x >>> 6 = x / 64 := by
  rw [Nat.shiftRight_eq_div_pow]

theorem shr10 (x : Nat) : x >>> 10 = x / 1024 := by
  rw [Nat.shiftRight_eq_div_pow]

theorem shr12 (x : Nat) : x >>> 12 = x / 4096 := by
  rw [Nat.shiftRight_eq_div_pow]

theorem shr18 (x : Nat) : x >>> 18 = x / 262144 := by
  rw [Nat.shiftRight_eq_div_pow]

/-! ### Frame lemmas about `validate_next` -/

theorem vn_fail_frame {buf : List Nat} {e it cp0 : Nat} {err : utf_error} {it' cp' : Nat}
    (h : validate_next buf e it cp0 = some (err, it', cp')) (hne : err ≠ UTF8_OK) :
    it' = it ∧ cp' = cp0 := by
  unfold validate_next at h
  cases hl : buf[it]? with
  | none => rw [hl] at h; cases h
  | some lead =>
    rw [hl] at h
    simp only at h
    split at h
    · simp only [Option.some.injEq, Prod.mk.injEq] at h
      exact ⟨h.2.1.symm, h.2.2.symm⟩
    · cases hs : get_sequence (sequence_length lead) buf e it 0 with
      | none => rw [hs] at h; cases h
      | some r =>
        obtain ⟨err2, it2, cp2⟩ := r
        rw [hs] at h
        simp only at h
        split at h
        · split at h
          · split at h
            · simp only [Option.some.injEq, Prod.mk.injEq] at h
              exact absurd h.1.symm hne
            · simp only [Option.some.injEq, Prod.mk.injEq] at h
              exact ⟨h.2.1.symm, h.2.2.symm⟩
          · simp only [Option.some.injEq, Prod.mk.injEq] at h
            exact ⟨h.2.1.symm, h.2.2.symm⟩
        · simp only [Option.some.injEq, Prod.mk.injEq] at h
          exact ⟨h.2.1.symm, h.2.2.symm⟩

theorem append_invalid {cp : Nat} (out : List Nat) (h : is_code_point_valid cp = false) :
    append cp out = .error (.invalid_code_point cp) := by
  simp [append, h]

theorem vn_of_get_sequence_fail {buf : List Nat} {e it cp0 lead : Nat} {err : utf_error}
    {itx cpx : Nat}
    (hl : buf[it]? = some lead) (h0 : sequence_length lead ≠ 0)
    (hs : get_sequence (sequence_length lead) buf e it 0 = some (err, itx, cpx))
    (hne : err ≠ UTF8_OK) :
    validate_next buf e it cp0 = some (err, it, cp0) := by
  unfold validate_next
  rw [hl]
  simp only [h0, if_false, hs]
  simp [hne]

theorem inc_ner {buf : List Nat} {e it : Nat} (h : it + 1 = e) :
    increase_safely buf e it = some (NOT_ENOUGH_ROOM, it + 1) := by
  simp [increase_safely, h]

theorem inc_ok {buf : List Nat} {e it b : Nat} (h : ¬(it + 1 = e))
    (hb : buf[it + 1]? = some b) (ht : is_trail b = true) :
    increase_safely buf e it = some (UTF8_OK, it + 1) := by
  simp [increase_safely, h, hb, ht]

theorem gs1_ner0 {buf : List Nat} {e it c : Nat} (h : it = e) :
    get_sequence_1 buf e it c = some (NOT_ENOUGH_ROOM, it, c) := by
  simp [get_sequence_1, h]

theorem gs2_ner0 {buf : List Nat} {e it c : Nat} (h : it = e) :
    get_sequence_2 buf e it c = some (NOT_ENOUGH_ROOM, it, c) := by
  simp [get_sequence_2, h]

theorem gs2_ner1 {buf : List Nat} {e it c b0 : Nat} (h : ¬(it = e))
    (hb : buf[it]? = some b0) (h1 : it + 1 = e) :
    get_sequence_2 buf e it c = some (NOT_ENOUGH_ROOM, it + 1, mask8 b0) := by
  simp [get_sequence_2, h, hb, inc_ner h1]

theorem gs3_ner0 {buf : List Nat} {e it c : Nat} (h : it = e) :
    get_sequence_3 buf e it c = some (NOT_ENOUGH_ROOM, it, c) := by
  simp [get_sequence_3, h]

theorem gs3_ner1 {buf : List Nat} {e it c b0 : Nat} (h : ¬(it = e))
    (hb : buf[it]? = some b0) (h1 : it + 1 = e) :
    get_sequence_3 buf e it c = some (NOT_ENOUGH_ROOM, it + 1, mask8 b0) := by
  simp [get_sequence_3, h, hb, inc_ner h1]

theorem gs3_ner2 {buf : List Nat} {e it c b0 b1 : Nat} (h : ¬(it = e))
    (hb : buf[it]? = some b0) (h1 : ¬(it + 1 = e)) (hb1 : buf[it + 1]? = some b1)
    (ht1 : is_trail b1 = true) (h2 : it + 1 + 1 = e) :
    get_sequence_3 buf e it c
      = some (NOT_ENOUGH_ROOM, it + 1 + 1,
          ((mask8 b0 <<< 12) &&& 0xffff) + ((mask8 b1 <<< 6) &&& 0xfff)) := by
  simp [get_sequence_3, h, hb, inc_ok h1 hb1 ht1, hb1, inc_ner h2]

theorem gs4_ner0 {buf : List Nat} {e it c : Nat} (h : it = e) :
    get_sequence_4 buf e it c = some (NOT_ENOUGH_ROOM, it, c) := by
  simp [get_sequence_4, h]

theorem gs4_ner1 {buf : List Nat} {e it c b0 : Nat} (h : ¬(it = e))
    (hb : buf[it]? = some b0) (h1 : it + 1 = e) :
    get_sequence_4 buf e it c = some (NOT_ENOUGH_ROOM, it + 1, mask8 b0) := by
  simp [get_sequence_4, h, hb, inc_ner h1]

theorem gs4_ner2 {buf : List Nat} {e it c b0 b1 : Nat} (h : ¬(it = e))
    (hb : buf[it]? = some b0) (h1 : ¬(it + 1 = e)) (hb1 : buf[it + 1]? = some b1)
    (ht1 : is_trail b1 = true) (h2 : it + 1 + 1 = e) :
    get_sequence_4 buf e it c
      = some (NOT_ENOUGH_ROOM, it + 1 + 1,
          ((mask8 b0 <<< 18) &&& 0x1fffff) + ((mask8 b1 <<< 12) &&& 0x3ffff)) := by
  simp [get_sequence_4, h, hb, inc_ok h1 hb1 ht1, hb1, inc_ner h2]

theorem gs4_ner3 {buf : List Nat} {e it c b0 b1 b2 : Nat} (h : ¬(it = e))
    (hb : buf[it]? = some b0) (h1 : ¬(it + 1 = e)) (hb1 : buf[it + 1]? = some b1)
    (ht1 : is_trail b1 = true) (h2 : ¬(it + 1 + 1 = e))
    (hb2 : buf[it + 1 + 1]? = some b2) (ht2 : is_trail b2 = true)
    (h3 : it + 1 + 1 + 1 = e) :
    get_sequence_4 buf e it c
      = some (NOT_ENOUGH_ROOM, it + 1 + 1 + 1,
          ((mask8 b0 <<< 18) &&& 0x1fffff) + ((mask8 b1 <<< 12) &&& 0x3ffff)
            + ((mask8 b2 <<< 6) &&& 0xfff)) := by
  simp [get_sequence_4, h, hb, inc_ok h1 hb1 ht1, hb1, inc_ok h2 hb2 ht2, hb2, inc_ner h3]

/-! ### Claim theorems -/

/-- C2: for every code point that is a surrogate value or exceeds `0x10FFFF`,
the checked `append` fails with `invalid_code_point` carrying that value and
produces no output bytes: the validity test precedes every write. -/
theorem append_rejects_invalid_before_writing (cp : Nat) (out : List Nat)
    (h : (LEAD_SURROGATE_MIN ≤ cp ∧ cp ≤ TRAIL_SURROGATE_MAX) ∨ CODE_POINT_MAX < cp) :
    append cp out = .error (.invalid_code_point cp) := by
  apply append_invalid
  rw [Bool.eq_false_iff]
  intro hv
  rw [is_code_point_valid_iff] at hv
  simp only [LEAD_SURROGATE_MIN, TRAIL_SURROGATE_MAX, CODE_POINT_MAX] at h
  omega

theorem append_rejects_invalid_before_writing_witness :
    (LEAD_SURROGATE_MIN ≤ 0xd800 ∧ (0xd800 : Nat) ≤ TRAIL_SURROGATE_MAX) ∧
    append 0xd800 [] = Except.error (.invalid_code_point 0xd800) :=
  ⟨by decide, append_rejects_invalid_before_writing 0xd800 [] (Or.inl (by decide))⟩

/-- C3: whenever the checked decode `validate_next` fails with any error
kind, the returned input position equals the position before the call; it
advances only on success. -/
theorem validate_next_no_partial_consumption (buf : List Nat) (e it cp0 : Nat)
    (err : utf_error) (it' cp' : Nat)
    (h : validate_next buf e it cp0 = some (err, it', cp')) (hne : err ≠ UTF8_OK) :
    it' = it :=
  (vn_fail_frame h hne).1

theorem validate_next_no_partial_consumption_witness :
    validate_next [0xc0, 0x80] 2 0 5 = some (OVERLONG_SEQUENCE, 0, 5) ∧ (0 : Nat) = 0 :=
  ⟨by decide,
   validate_next_no_partial_consumption [0xc0, 0x80] 2 0 5 OVERLONG_SEQUENCE 0 5
     (by decide) (by decide)⟩

/-- C5: a sequence whose byte patterns decode successfully (`get_sequence`
returns `UTF8_OK`) to a valid code point whose minimal length is shorter
than the declared length is rejected with `OVERLONG_SEQUENCE`, the check
applied after the code-point validity check; instantiating at `C0 80`
(the overlong encoding of 0) gives `OVERLONG_SEQUENCE`, never U+0000. -/
theorem overlong_sequences_rejected (buf : List Nat) (e it cp0 lead it2 cp : Nat)
    (hl : buf[it]? = some lead)
    (h0 : sequence_length lead ≠ 0)
    (hs : get_sequence (sequence_length lead) buf e it 0 = some (UTF8_OK, it2, cp))
    (hval : is_code_point_valid cp = true)
    (hover : is_overlong_sequence cp (sequence_length lead) = true) :
    validate_next buf e it cp0 = some (OVERLONG_SEQUENCE, it, cp0) := by
  unfold validate_next
  rw [hl]
  simp only [h0, if_false, hs, hval, hover]
  simp

theorem overlong_sequences_rejected_witness :
    validate_next [0xc0, 0x80] 2 0 0 = some (OVERLONG_SEQUENCE, 0, 0) :=
  overlong_sequences_rejected [0xc0, 0x80] 2 0 0 0xc0 1 0
    (by decide) (by decide) (by decide) (by decide) (by decide)

/-- C8 (code bug): the checked decode dereferences the lead byte through
`sequence_length` before any bounds check.  On an empty range
(`position == end`) with no physically readable byte past the bound, the
read is out of bounds (`none`); when a byte does sit past the bound, it is
read and even determines the error returned (`INVALID_LEAD` for `0xFF`
versus `NOT_ENOUGH_ROOM` for `0x41`), contradicting the claim that no byte
is read and `NOT_ENOUGH_ROOM` is always returned. -/
theorem validate_next_reads_lead_out_of_bounds :
    validate_next [] 0 0 0 = none ∧
    validate_next [0xff] 0 0 0 = some (INVALID_LEAD, 0, 0) ∧
    validate_next [0x41] 0 0 0 = some (NOT_ENOUGH_ROOM, 0, 0) := by decide

/-- C10: `validate_next` leaves its `code_point` out-parameter unchanged on
every failure, and consequently the `invalid_code_point` error produced by
`next` for an `INVALID_CODE_POINT` failure carries `next`'s local
initialization 0, not the rejected decoded value. -/
theorem validate_next_writes_code_point_only_on_success :
    (∀ buf e it cp0 err it' cp', validate_next buf e it cp0 = some (err, it', cp') →
        err ≠ UTF8_OK → cp' = cp0) ∧
    (∀ buf e it v, next buf e it = some (.error (.invalid_code_point v)) → v = 0) := by
  constructor
  · intro buf e it cp0 err it' cp' h hne
    exact (vn_fail_frame h hne).2
  · intro buf e it v h
    unfold next at h
    cases hv : validate_next buf e it 0 with
    | none => rw [hv] at h; cases h
    | some r =>
      obtain ⟨err, it2, cp⟩ := r
      rw [hv] at h
      cases err with
      | UTF8_OK => simp at h
      | NOT_ENOUGH_ROOM => simp at h
      | INVALID_CODE_POINT =>
        simp only [Option.some.injEq, Except.error.injEq,
          Utf8Exception.invalid_code_point.injEq] at h
        rw [← h]
        exact (vn_fail_frame hv (by simp)).2
      | INVALID_LEAD =>
        simp only at h
        cases hb : buf[it2]? with
        | none => rw [hb] at h; cases h
        | some b => rw [hb] at h; simp at h
      | INCOMPLETE_SEQUENCE =>
        simp only at h
        cases hb : buf[it2]? with
        | none => rw [hb] at h; cases h
        | some b => rw [hb] at h; simp at h
      | OVERLONG_SEQUENCE =>
        simp only at h
        cases hb : buf[it2]? with
        | none => rw [hb] at h; cases h
        | some b => rw [hb] at h; simp at h

theorem validate_next_writes_code_point_only_on_success_witness :
    (0 : Nat) = 0 ∧
    next [0xed, 0xa0, 0x80] 3 0 = some (.error (.invalid_code_point 0)) :=
  ⟨validate_next_writes_code_point_only_on_success.2 [0xed, 0xa0, 0x80] 3 0 0 (by rfl),
   by rfl⟩

/-- C6 counterexample: at lead byte `E2` (declared length 3) with only two
bytes before the end bound, the second of which fails the continuation
test, the checked decode fails with `INCOMPLETE_SEQUENCE`, not with
`NOT_ENOUGH_ROOM` as the claim states for every short-of-`L` position. -/
theorem truncation_always_ner_counterexample :
    sequence_length 0xe2 = 3 ∧ (2 : Nat) - 0 < 3 ∧
    validate_next [0xe2, 0x41] 2 0 0 = some (INCOMPLETE_SEQUENCE, 0, 0) ∧
    INCOMPLETE_SEQUENCE ≠ NOT_ENOUGH_ROOM := by decide

/-- C6 (amended): if the lead byte at `position ≤ end` declares length
`L ≥ 1`, fewer than `L` bytes remain before the end bound, and every byte
strictly between the position and the end bound passes the
continuation-byte test, then the checked decode fails with
`NOT_ENOUGH_ROOM` (with the position restored); in particular the single
byte `E2` at end-of-buffer fails with `NOT_ENOUGH_ROOM`. -/
theorem truncated_sequence_not_enough_room (buf : List Nat) (e it cp0 lead : Nat)
    (hl : buf[it]? = some lead)
    (hle : it ≤ e)
    (hL1 : 1 ≤ sequence_length lead)
    (hroom : e - it < sequence_length lead)
    (htrail : ∀ j, it < j → j < e → ∃ bj, buf[j]? = some bj ∧ is_trail bj = true) :
    validate_next buf e it cp0 = some (NOT_ENOUGH_ROOM, it, cp0) := by
  have hL4 := seq_len_le_4 lead
  have h0 : sequence_length lead ≠ 0 := by omega
  have hcase : sequence_length lead = 1 ∨ sequence_length lead = 2 ∨
      sequence_length lead = 3 ∨ sequence_length lead = 4 := by omega
  rcases hcase with hL | hL | hL | hL
  · have hit : it = e := by omega
    exact vn_of_get_sequence_fail hl h0
      (by rw [hL]; simpa [get_sequence] using @gs1_ner0 buf e it 0 hit) (by decide)
  · rcases (by omega : it = e ∨ e = it + 1) with hit | hit
    · exact vn_of_get_sequence_fail hl h0
        (by rw [hL]; simpa [get_sequence] using @gs2_ner0 buf e it 0 hit) (by decide)
    · exact vn_of_get_sequence_fail hl h0
        (by rw [hL]
            simpa [get_sequence] using gs2_ner1 (c := 0) (by omega) hl (by omega)) (by decide)
  · rcases (by omega : it = e ∨ e = it + 1 ∨ e = it + 2) with hit | hit | hit
    · exact vn_of_get_sequence_fail hl h0
        (by rw [hL]; simpa [get_sequence] using @gs3_ner0 buf e it 0 hit) (by decide)
    · exact vn_of_get_sequence_fail hl h0
        (by rw [hL]
            simpa [get_sequence] using gs3_ner1 (c := 0) (by omega) hl (by omega)) (by decide)
    · obtain ⟨b1, hb1, ht1⟩ := htrail (it + 1) (by omega) (by omega)
      exact vn_of_get_sequence_fail hl h0
        (by rw [hL]
            simpa [get_sequence] using
              gs3_ner2 (c := 0) (by omega) hl (by omega) hb1 ht1 (by omega)) (by decide)
  · rcases (by omega : it = e ∨ e = it + 1 ∨ e = it + 2 ∨ e = it + 3) with hit | hit | hit | hit
    · exact vn_of_get_sequence_fail hl h0
        (by rw [hL]; simpa [get_sequence] using @gs4_ner0 buf e it 0 hit) (by decide)
    · exact vn_of_get_sequence_fail hl h0
        (by rw [hL]
            simpa [get_sequence] using gs4_ner1 (c := 0) (by omega) hl (by omega)) (by decide)
    · obtain ⟨b1, hb1, ht1⟩ := htrail (it + 1) (by omega) (by omega)
      exact vn_of_get_sequence_fail hl h0
        (by rw [hL]
            simpa [get_sequence] using
              gs4_ner2 (c := 0) (by omega) hl (by omega) hb1 ht1 (by omega)) (by decide)
    · obtain ⟨b1, hb1, ht1⟩ := htrail (it + 1) (by omega) (by omega)
      obtain ⟨b2, hb2, ht2⟩ := htrail (it + 2) (by omega) (by omega)
      exact vn_of_get_sequence_fail hl h0
        (by rw [hL]
            simpa [get_sequence] using
              gs4_ner3 (c := 0) (by omega) hl (by omega) hb1 ht1 (by omega)
                (by simpa using hb2) (by simpa using ht2) (by omega)) (by decide)

theorem copy_loop_eq : ∀ (k : Nat) (buf : List Nat) (i : Nat) (out : List Nat),
    i + k ≤ buf.length →
    copy_loop (k + 1) buf i (i + k) out = some (out ++ (buf.drop i).take k) := by
  intro k
  induction k with
  | zero => intro buf i out h; simp [copy_loop]
  | succ k ih =>
    intro buf i out h
    have hi : i < buf.length := by omega
    rw [copy_loop]
    rw [if_neg (by omega)]
    rw [List.getElem?_eq_getElem hi]
    simp only
    have := ih buf (i + 1) (out ++ [buf[i]]) (by omega)
    rw [show i + 1 + k = i + (k + 1) by omega] at this
    rw [this]
    rw [List.drop_eq_getElem_cons hi, List.take_succ_cons]
    simp

theorem copy_loop_eq' (buf : List Nat) (i j : Nat) (out : List Nat)
    (hij : i ≤ j) (hj : j ≤ buf.length) :
    copy_loop (j - i + 1) buf i j out = some (out ++ (buf.drop i).take (j - i)) := by
  obtain ⟨k, rfl⟩ : ∃ k, j = i + k := ⟨j - i, by omega⟩
  rw [show i + k - i = k by omega]
  exact copy_loop_eq k buf i out hj

/-- C4: the sanitizer copies each well-formed unit's bytes verbatim and
emits exactly one replacement per malformed unit: the concrete
`48 65 FF 6C 6C 6F` input sanitizes to the bytes of He, one encoded
U+FFFD, then llo; one loop step on a well-formed unit appends exactly the
consumed bytes; one step on `INVALID_LEAD` appends the replacement's
encoding and advances exactly one byte; one step on
`INCOMPLETE_SEQUENCE`, `OVERLONG_SEQUENCE` or `INVALID_CODE_POINT`
appends the replacement's encoding, advances one byte and then skips the
immediately following continuation bytes via `skip_trail_loop`. -/
theorem replace_invalid_behavior :
    (replace_invalid [0x48, 0x65, 0xff, 0x6c, 0x6c, 0x6f] 6 0 [] 0xfffd
      = some (.ok [0x48, 0x65, 0xef, 0xbf, 0xbd, 0x6c, 0x6c, 0x6f]))
    ∧ (∀ fuel buf e start out repl start2, start ≠ e →
        validate_next2 buf e start = some (UTF8_OK, start2) →
        start ≤ start2 → start2 ≤ buf.length →
        replace_invalid_loop (fuel + 1) buf e start out repl
          = replace_invalid_loop fuel buf e start2
              (out ++ (buf.drop start).take (start2 - start)) repl)
    ∧ (∀ fuel buf e start out out2 repl start2, start ≠ e →
        validate_next2 buf e start = some (INVALID_LEAD, start2) →
        append repl out = .ok out2 →
        replace_invalid_loop (fuel + 1) buf e start out repl
          = replace_invalid_loop fuel buf e (start + 1) out2 repl)
    ∧ (∀ fuel buf e start out out2 repl err start2 start3, start ≠ e →
        validate_next2 buf e start = some (err, start2) →
        (err = INCOMPLETE_SEQUENCE ∨ err = OVERLONG_SEQUENCE ∨ err = INVALID_CODE_POINT) →
        append repl out = .ok out2 →
        skip_trail_loop (e - (start + 1) + 1) buf e (start + 1) = some start3 →
        replace_invalid_loop (fuel + 1) buf e start out repl
          = replace_invalid_loop fuel buf e start3 out2 repl) := by
  refine ⟨by rfl, ?_, ?_, ?_⟩
  · intro fuel buf e start out repl start2 hne hv hle hlen
    rw [replace_invalid_loop]
    rw [if_neg hne, hv]
    simp only
    rw [copy_loop_eq' buf start start2 out hle hlen]
  · intro fuel buf e start out out2 repl start2 hne hv ha
    rw [replace_invalid_loop]
    rw [if_neg hne, hv]
    simp only
    rw [ha]
  · intro fuel buf e start out out2 repl err start2 start3 hne hv herr ha hskip
    rcases herr with h | h | h <;> subst h <;>
      (rw [replace_invalid_loop]; rw [if_neg hne, hv]; simp only; rw [ha, hskip])

theorem replace_invalid_behavior_witness :
    replace_invalid_loop 2 [0xff, 0x41] 2 0 [] 0xfffd
      = replace_invalid_loop 1 [0xff, 0x41] 2 1 [0xef, 0xbf, 0xbd] 0xfffd :=
  replace_invalid_behavior.2.2.1 1 [0xff, 0x41] 2 0 [] [0xef, 0xbf, 0xbd] 0xfffd 0
    (by omega) (by decide) (by rfl)

/-- C9: the sanitizer encodes its replacement through the checked `append`:
at any malformed unit (any substitutable error), an invalid replacement
code point makes the whole call fail with `invalid_code_point` carrying
the replacement, writing no replacement bytes. -/
theorem replace_invalid_checked_replacement (fuel : Nat) (buf : List Nat) (e start : Nat)
    (out : List Nat) (repl : Nat) (err : utf_error) (start2 : Nat)
    (hne : start ≠ e)
    (hv : validate_next2 buf e start = some (err, start2))
    (herr : err = INVALID_LEAD ∨ err = INCOMPLETE_SEQUENCE ∨ err = OVERLONG_SEQUENCE ∨
      err = INVALID_CODE_POINT)
    (hrep : is_code_point_valid repl = false) :
    replace_invalid_loop (fuel + 1) buf e start out repl
      = some (.error (.invalid_code_point repl)) := by
  have ha := append_invalid out hrep
  rcases herr with h | h | h | h <;> subst h <;>
    (rw [replace_invalid_loop]; rw [if_neg hne, hv]; simp only; rw [ha])

theorem replace_invalid_checked_replacement_witness :
    replace_invalid [0xff] 1 0 [] 0xd800 = some (.error (.invalid_code_point 0xd800)) ∧
    replace_invalid_loop 2 [0xff] 1 0 [] 0xd800
      = some (.error (.invalid_code_point 0xd800)) :=
  ⟨by rfl,
   replace_invalid_checked_replacement 1 [0xff] 1 0 [] 0xd800 INVALID_LEAD 0
     (by omega) (by decide) (Or.inl rfl) (by decide)⟩

theorem truncated_sequence_not_enough_room_witness :
    validate_next [0xe2] 1 0 0 = some (NOT_ENOUGH_ROOM, 0, 0) :=
  truncated_sequence_not_enough_room [0xe2] 1 0 0 0xe2 (by decide) (by omega)
    (by decide) (by decide) (by intro j h1 h2; omega)

/-! ### Inversion lemmas for successful decodes -/

theorem inc_inv {buf : List Nat} {e it : Nat} {r : utf_error} {itn : Nat}
    (h : increase_safely buf e it = some (r, itn)) :
    itn = it + 1 ∧ (r = UTF8_OK →
      it + 1 ≠ e ∧ ∃ b, buf[it + 1]? = some b ∧ is_trail b = true) := by
  unfold increase_safely at h
  split at h
  · simp only [Option.some.injEq, Prod.mk.injEq] at h
    exact ⟨h.2.symm, fun hr => absurd (h.1.trans hr) (by decide)⟩
  · cases hb : buf[it + 1]? with
    | none => simp [hb] at h
    | some b =>
      simp only [hb] at h
      split at h
      · simp only [Option.some.injEq, Prod.mk.injEq] at h
        exact ⟨h.2.symm, fun hr => absurd (h.1.trans hr) (by decide)⟩
      · simp only [Option.some.injEq, Prod.mk.injEq] at h
        refine ⟨h.2.symm, fun _ => ⟨by assumption, b, rfl, ?_⟩⟩
        simp_all

theorem g1_inv {buf : List Nat} {e it c it2 cp : Nat}
    (h : get_sequence_1 buf e it c = some (UTF8_OK, it2, cp)) :
    it2 = it ∧ it ≠ e ∧ ∃ b0, buf[it]? = some b0 ∧ cp = mask8 b0 := by
  unfold get_sequence_1 at h
  split at h
  · simp at h
  · cases hb0 : buf[it]? with
    | none => simp [hb0] at h
    | some b0 =>
      simp only [hb0, Option.some.injEq, Prod.mk.injEq] at h
      exact ⟨h.2.1.symm, by assumption, b0, rfl, h.2.2.symm⟩

theorem g2_inv {buf : List Nat} {e it c it2 cp : Nat}
    (h : get_sequence_2 buf e it c = some (UTF8_OK, it2, cp)) :
    it2 = it + 1 ∧ it ≠ e ∧ it + 1 ≠ e ∧
    ∃ b0 b1, buf[it]? = some b0 ∧ buf[it + 1]? = some b1 ∧ is_trail b1 = true ∧
      cp = ((mask8 b0 <<< 6) &&& 0x7ff) + (b1 &&& 0x3f) := by
  unfold get_sequence_2 at h
  split at h
  · simp at h
  · cases hb0 : buf[it]? with
    | none => simp [hb0] at h
    | some b0 =>
      simp only [hb0] at h
      cases hinc : increase_safely buf e it with
      | none => simp [hinc] at h
      | some r =>
        obtain ⟨ret, it1⟩ := r
        simp only [hinc] at h
        obtain ⟨hit1, hok⟩ := inc_inv hinc
        subst hit1
        split at h
        · simp only [Option.some.injEq, Prod.mk.injEq] at h
          exact absurd h.1 (by assumption)
        · obtain ⟨hne1, b1, hb1, ht1⟩ := hok (not_ne_iff.mp (by assumption))
          simp only [hb1, Option.some.injEq, Prod.mk.injEq] at h
          obtain ⟨-, hit2, hcp⟩ := h
          exact ⟨hit2.symm, by assumption, hne1, b0, b1, rfl, hb1, ht1, hcp.symm⟩

theorem g3_inv {buf : List Nat} {e it c it2 cp : Nat}
    (h : get_sequence_3 buf e it c = some (UTF8_OK, it2, cp)) :
    it2 = it + 1 + 1 ∧ it ≠ e ∧ it + 1 ≠ e ∧ it + 1 + 1 ≠ e ∧
    ∃ b0 b1 b2, buf[it]? = some b0 ∧ buf[it + 1]? = some b1 ∧
      buf[it + 1 + 1]? = some b2 ∧ is_trail b1 = true ∧ is_trail b2 = true ∧
      cp = ((mask8 b0 <<< 12) &&& 0xffff) + ((mask8 b1 <<< 6) &&& 0xfff) + (b2 &&& 0x3f) := by
  unfold get_sequence_3 at h
  split at h
  · simp at h
  · cases hb0 : buf[it]? with
    | none => simp [hb0] at h
    | some b0 =>
      simp only [hb0] at h
      cases hinc : increase_safely buf e it with
      | none => simp [hinc] at h
      | some r =>
        obtain ⟨ret, it1⟩ := r
        simp only [hinc] at h
        obtain ⟨hit1, hok⟩ := inc_inv hinc
        subst hit1
        split at h
        · simp only [Option.some.injEq, Prod.mk.injEq] at h
          exact absurd h.1 (by assumption)
        · obtain ⟨hne1, b1, hb1, ht1⟩ := hok (not_ne_iff.mp (by assumption))
          simp only [hb1] at h
          cases hinc2 : increase_safely buf e (it + 1) with
          | none => simp [hinc2] at h
          | some r2 =>
            obtain ⟨ret2, it2a⟩ := r2
            simp only [hinc2] at h
            obtain ⟨hit2a, hok2⟩ := inc_inv hinc2
            subst hit2a
            split at h
            · simp only [Option.some.injEq, Prod.mk.injEq] at h
              exact absurd h.1 (by assumption)
            · obtain ⟨hne2, b2, hb2, ht2⟩ := hok2 (not_ne_iff.mp (by assumption))
              simp only [hb2, Option.some.injEq, Prod.mk.injEq] at h
              obtain ⟨-, hit2, hcp⟩ := h
              exact ⟨hit2.symm, by assumption, hne1, hne2, b0, b1, b2, rfl, hb1, hb2,
                ht1, ht2, hcp.symm⟩

theorem g4_inv {buf : List Nat} {e it c it2 cp : Nat}
    (h : get_sequence_4 buf e it c = some (UTF8_OK, it2, cp)) :
    it2 = it + 1 + 1 + 1 ∧ it ≠ e ∧ it + 1 ≠ e ∧ it + 1 + 1 ≠ e ∧ it + 1 + 1 + 1 ≠ e ∧
    ∃ b0 b1 b2 b3, buf[it]? = some b0 ∧ buf[it + 1]? = some b1 ∧
      buf[it + 1 + 1]? = some b2 ∧ buf[it + 1 + 1 + 1]? = some b3 ∧
      is_trail b1 = true ∧ is_trail b2 = true ∧ is_trail b3 = true ∧
      cp = ((mask8 b0 <<< 18) &&& 0x1fffff) + ((mask8 b1 <<< 12) &&& 0x3ffff)
        + ((mask8 b2 <<< 6) &&& 0xfff) + (b3 &&& 0x3f) := by
  unfold get_sequence_4 at h
  split at h
  · simp at h
  · cases hb0 : buf[it]? with
    | none => simp [hb0] at h
    | some b0 =>
      simp only [hb0] at h
      cases hinc : increase_safely buf e it with
      | none => simp [hinc] at h
      | some r =>
        obtain ⟨ret, it1⟩ := r
        simp only [hinc] at h
        obtain ⟨hit1, hok⟩ := inc_inv hinc
        subst hit1
        split at h
        · simp only [Option.some.injEq, Prod.mk.injEq] at h
          exact absurd h.1 (by assumption)
        · obtain ⟨hne1, b1, hb1, ht1⟩ := hok (not_ne_iff.mp (by assumption))
          simp only [hb1] at h
          cases hinc2 : increase_safely buf e (it + 1) with
          | none => simp [hinc2] at h
          | some r2 =>
            obtain ⟨ret2, it2a⟩ := r2
            simp only [hinc2] at h
            obtain ⟨hit2a, hok2⟩ := inc_inv hinc2
            subst hit2a
            split at h
            · simp only [Option.some.injEq, Prod.mk.injEq] at h
              exact absurd h.1 (by assumption)
            · obtain ⟨hne2, b2, hb2, ht2⟩ := hok2 (not_ne_iff.mp (by assumption))
              simp only [hb2] at h
              cases hinc3 : increase_safely buf e (it + 1 + 1) with
              | none => simp [hinc3] at h
              | some r3 =>
                obtain ⟨ret3, it3a⟩ := r3
                simp only [hinc3] at h
                obtain ⟨hit3a, hok3⟩ := inc_inv hinc3
                subst hit3a
                split at h
                · simp only [Option.some.injEq, Prod.mk.injEq] at h
                  exact absurd h.1 (by assumption)
                · obtain ⟨hne3, b3, hb3, ht3⟩ := hok3 (not_ne_iff.mp (by assumption))
                  simp only [hb3, Option.some.injEq, Prod.mk.injEq] at h
                  obtain ⟨-, hit2, hcp⟩ := h
                  exact ⟨hit2.symm, by assumption, hne1, hne2, hne3, b0, b1, b2, b3,
                    rfl, hb1, hb2, hb3, ht1, ht2, ht3, hcp.symm⟩

theorem vn_ok_inv {buf : List Nat} {e it it' cpOut : Nat}
    (h : validate_next buf e it 0 = some (UTF8_OK, it', cpOut)) :
    ∃ lead, buf[it]? = some lead ∧ sequence_length lead ≠ 0 ∧
      ∃ it2, get_sequence (sequence_length lead) buf e it 0 = some (UTF8_OK, it2, cpOut) ∧
        it' = it2 + 1 ∧ is_code_point_valid cpOut = true ∧
        is_overlong_sequence cpOut (sequence_length lead) = false := by
  unfold validate_next at h
  cases hl : buf[it]? with
  | none => simp [hl] at h
  | some lead =>
    simp only [hl] at h
    split at h
    · simp at h
    · cases hs : get_sequence (sequence_length lead) buf e it 0 with
      | none => simp [hs] at h
      | some r =>
        obtain ⟨err2, it2, cp2⟩ := r
        simp only [hs] at h
        split at h
        · split at h
          · split at h
            · simp only [Option.some.injEq, Prod.mk.injEq] at h
              obtain ⟨-, hit, hcp⟩ := h
              subst hcp
              refine ⟨lead, rfl, by assumption, it2, ?_, hit.symm, by assumption, ?_⟩
              · rw [hs]
                congr 1
                simp_all
              · have hov : (!is_overlong_sequence cp2 (sequence_length lead)) = true := by
                  assumption
                simpa using hov
            · simp at h
          · simp at h
        · simp only [Option.some.injEq, Prod.mk.injEq] at h
          exact absurd h.1 (by assumption)

theorem byte_lt {buf : List Nat} {i b : Nat} (h256 : ∀ x ∈ buf, x < 256)
    (hb : buf[i]? = some b) : b < 256 := by
  obtain ⟨hi, hg⟩ := List.getElem?_eq_some_iff.mp hb
  exact hg ▸ h256 _ (List.getElem_mem hi)

theorem ov1 {c : Nat} (h : is_overlong_sequence c 1 = false) (hc : c < 0x10000) :
    c < 0x80 := by
  by_contra hx
  rcases (by omega : (0x80 ≤ c ∧ c < 0x800) ∨ (0x800 ≤ c ∧ c < 0x10000)) with ⟨h1, h2⟩ | ⟨h1, h2⟩
  · simp [is_overlong_sequence, show ¬(c < 0x80) by omega, h2] at h
  · simp [is_overlong_sequence, show ¬(c < 0x80) by omega, show ¬(c < 0x800) by omega, h2] at h

theorem ov2 {c : Nat} (h : is_overlong_sequence c 2 = false) : 0x80 ≤ c := by
  by_contra hx
  simp [is_overlong_sequence, show c < 0x80 by omega] at h

theorem ov3 {c : Nat} (h : is_overlong_sequence c 3 = false) : 0x800 ≤ c := by
  by_contra hx
  rcases (by omega : c < 0x80 ∨ (0x80 ≤ c ∧ c < 0x800)) with h1 | ⟨h1, h2⟩
  · simp [is_overlong_sequence, h1] at h
  · simp [is_overlong_sequence, show ¬(c < 0x80) by omega, h2] at h

theorem ov4 {c : Nat} (h : is_overlong_sequence c 4 = false) : 0x10000 ≤ c := by
  by_contra hx
  rcases (by omega : c < 0x80 ∨ (0x80 ≤ c ∧ c < 0x800) ∨ (0x800 ≤ c ∧ c < 0x10000)) with
    h1 | ⟨h1, h2⟩ | ⟨h1, h2⟩
  · simp [is_overlong_sequence, h1] at h
  · simp [is_overlong_sequence, show ¬(c < 0x80) by omega, h2] at h
  · simp [is_overlong_sequence, show ¬(c < 0x80) by omega, show ¬(c < 0x800) by omega, h2] at h

theorem take_drop_succ {buf : List Nat} {i k b : Nat} (hb : buf[i]? = some b) :
    (buf.drop i).take (k + 1) = b :: (buf.drop (i + 1)).take k := by
  obtain ⟨hi, hg⟩ := List.getElem?_eq_some_iff.mp hb
  rw [List.drop_eq_getElem_cons hi, List.take_succ_cons, hg]

/-! ### Characterization of the encoder on each code-point band -/

theorem append_eq_1 {cp : Nat} (h : cp < 0x80) (out : List Nat) :
    append cp out = .ok (out ++ [cp]) := by
  have hv : is_code_point_valid cp = true := by rw [is_code_point_valid_iff]; omega
  simp [append, hv, h, Nat.mod_eq_of_lt (show cp < 256 by omega)]

theorem append_eq_2 {cp : Nat} (h1 : 0x80 ≤ cp) (h2 : cp < 0x800) (out : List Nat) :
    append cp out = .ok (out ++ [0xc0 + cp / 64, 0x80 + cp % 64]) := by
  have hv : is_code_point_valid cp = true := by rw [is_code_point_valid_iff]; omega
  have e1 : ((cp >>> 6) ||| 0xc0) % 256 = 0xc0 + cp / 64 := by
    rw [shr6, lor_c0 (cp / 64) (by omega)]; omega
  have e2 : ((cp &&& 0x3f) ||| 0x80) % 256 = 0x80 + cp % 64 := by
    rw [and_3f, lor_80 (cp % 64) (by omega)]; omega
  simp [append, hv, Nat.not_lt.mpr h1, h2, e1, e2]

theorem append_eq_3 {cp : Nat} (h1 : 0x800 ≤ cp) (h2 : cp < 0x10000)
    (hv : is_code_point_valid cp = true) (out : List Nat) :
    append cp out = .ok (out ++ [0xe0 + cp / 4096, 0x80 + cp / 64 % 64, 0x80 + cp % 64]) := by
  have e1 : ((cp >>> 12) ||| 0xe0) % 256 = 0xe0 + cp / 4096 := by
    rw [shr12, lor_e0 (cp / 4096) (by omega)]; omega
  have e2 : (((cp >>> 6) &&& 0x3f) ||| 0x80) % 256 = 0x80 + cp / 64 % 64 := by
    rw [shr6, and_3f, lor_80 (cp / 64 % 64) (by omega)]; omega
  have e3 : ((cp &&& 0x3f) ||| 0x80) % 256 = 0x80 + cp % 64 := by
    rw [and_3f, lor_80 (cp % 64) (by omega)]; omega
  simp [append, hv, Nat.not_lt.mpr h1, h2, show ¬(cp < 0x800) by omega,
    show ¬(cp < 0x80) by omega, e1, e2, e3]

theorem append_eq_4 {cp : Nat} (h1 : 0x10000 ≤ cp) (h2 : cp ≤ 0x10ffff) (out : List Nat) :
    append cp out
      = .ok (out ++ [0xf0 + cp / 262144, 0x80 + cp / 4096 % 64,
                     0x80 + cp / 64 % 64, 0x80 + cp % 64]) := by
  have hv : is_code_point_valid cp = true := by rw [is_code_point_valid_iff]; omega
  have e1 : ((cp >>> 18) ||| 0xf0) % 256 = 0xf0 + cp / 262144 := by
    rw [shr18, lor_f0 (cp / 262144) (by omega)]; omega
  have e2 : (((cp >>> 12) &&& 0x3f) ||| 0x80) % 256 = 0x80 + cp / 4096 % 64 := by
    rw [shr12, and_3f, lor_80 (cp / 4096 % 64) (by omega)]; omega
  have e3 : (((cp >>> 6) &&& 0x3f) ||| 0x80) % 256 = 0x80 + cp / 64 % 64 := by
    rw [shr6, and_3f, lor_80 (cp / 64 % 64) (by omega)]; omega
  have e4 : ((cp &&& 0x3f) ||| 0x80) % 256 = 0x80 + cp % 64 := by
    rw [and_3f, lor_80 (cp % 64) (by omega)]; omega
  simp [append, hv, show ¬(cp < 0x80) by omega, show ¬(cp < 0x800) by omega,
    show ¬(cp < 0x10000) by omega, e1, e2, e3, e4]

/-! ### Decoding a single well-formed two-element buffer back -/

theorem decode_1 {b0 : Nat} (hs : sequence_length b0 = 1)
    (hv : is_code_point_valid (mask8 b0) = true)
    (ho : is_overlong_sequence (mask8 b0) 1 = false) :
    validate_next [b0] 1 0 0 = some (UTF8_OK, 1, mask8 b0) := by
  simp [validate_next, get_sequence, get_sequence_1, hs, hv, ho]

theorem decode_2 {b0 b1 : Nat} (hs : sequence_length b0 = 2) (ht1 : is_trail b1 = true)
    (hv : is_code_point_valid (((mask8 b0 <<< 6) &&& 0x7ff) + (b1 &&& 0x3f)) = true)
    (ho : is_overlong_sequence (((mask8 b0 <<< 6) &&& 0x7ff) + (b1 &&& 0x3f)) 2 = false) :
    validate_next [b0, b1] 2 0 0
      = some (UTF8_OK, 2, ((mask8 b0 <<< 6) &&& 0x7ff) + (b1 &&& 0x3f)) := by
  simp [validate_next, get_sequence, get_sequence_2, increase_safely, hs, ht1, hv, ho]

theorem decode_3 {b0 b1 b2 : Nat} (hs : sequence_length b0 = 3)
    (ht1 : is_trail b1 = true) (ht2 : is_trail b2 = true)
    (hv : is_code_point_valid
        (((mask8 b0 <<< 12) &&& 0xffff) + ((mask8 b1 <<< 6) &&& 0xfff) + (b2 &&& 0x3f))
        = true)
    (ho : is_overlong_sequence
        (((mask8 b0 <<< 12) &&& 0xffff) + ((mask8 b1 <<< 6) &&& 0xfff) + (b2 &&& 0x3f)) 3
        = false) :
    validate_next [b0, b1, b2] 3 0 0
      = some (UTF8_OK, 3,
          ((mask8 b0 <<< 12) &&& 0xffff) + ((mask8 b1 <<< 6) &&& 0xfff) + (b2 &&& 0x3f)) := by
  simp [validate_next, get_sequence, get_sequence_3, increase_safely, hs, ht1, ht2, hv, ho]

theorem decode_4 {b0 b1 b2 b3 : Nat} (hs : sequence_length b0 = 4)
    (ht1 : is_trail b1 = true) (ht2 : is_trail b2 = true) (ht3 : is_trail b3 = true)
    (hv : is_code_point_valid
        (((mask8 b0 <<< 18) &&& 0x1fffff) + ((mask8 b1 <<< 12) &&& 0x3ffff)
          + ((mask8 b2 <<< 6) &&& 0xfff) + (b3 &&& 0x3f)) = true)
    (ho : is_overlong_sequence
        (((mask8 b0 <<< 18) &&& 0x1fffff) + ((mask8 b1 <<< 12) &&& 0x3ffff)
          + ((mask8 b2 <<< 6) &&& 0xfff) + (b3 &&& 0x3f)) 4 = false) :
    validate_next [b0, b1, b2, b3] 4 0 0
      = some (UTF8_OK, 4,
          ((mask8 b0 <<< 18) &&& 0x1fffff) + ((mask8 b1 <<< 12) &&& 0x3ffff)
            + ((mask8 b2 <<< 6) &&& 0xfff) + (b3 &&& 0x3f)) := by
  simp [validate_next, get_sequence, get_sequence_4, increase_safely, hs, ht1, ht2, ht3, hv, ho]

theorem slice_one {buf : List Nat} {i b0 : Nat} (h0 : buf[i]? = some b0) :
    (buf.drop i).take 1 = [b0] := by
  have t0 := take_drop_succ (k := 0) h0
  norm_num [List.take_zero] at t0
  exact t0

theorem slice_two {buf : List Nat} {i b0 b1 : Nat} (h0 : buf[i]? = some b0)
    (h1 : buf[i + 1]? = some b1) :
    (buf.drop i).take 2 = [b0, b1] := by
  have t0 := take_drop_succ (k := 1) h0
  norm_num [slice_one h1] at t0
  exact t0

theorem slice_three {buf : List Nat} {i b0 b1 b2 : Nat} (h0 : buf[i]? = some b0)
    (h1 : buf[i + 1]? = some b1) (h2 : buf[i + 1 + 1]? = some b2) :
    (buf.drop i).take 3 = [b0, b1, b2] := by
  have t0 := take_drop_succ (k := 2) h0
  norm_num [slice_two h1 h2] at t0
  exact t0

theorem slice_four {buf : List Nat} {i b0 b1 b2 b3 : Nat} (h0 : buf[i]? = some b0)
    (h1 : buf[i + 1]? = some b1) (h2 : buf[i + 1 + 1]? = some b2)
    (h3 : buf[i + 1 + 1 + 1]? = some b3) :
    (buf.drop i).take 4 = [b0, b1, b2, b3] := by
  have t0 := take_drop_succ (k := 3) h0
  norm_num [slice_three h1 h2 h3] at t0
  exact t0

theorem vn_ok_main {buf : List Nat} {e it it' cp : Nat}
    (hlt : it < e) (he : e ≤ buf.length) (h256 : ∀ b ∈ buf, b < 256)
    (h : validate_next buf e it 0 = some (UTF8_OK, it', cp)) :
    it < it' ∧ it' ≤ e ∧ is_code_point_valid cp = true ∧
    (∀ out, append cp out = .ok (out ++ (buf.drop it).take (it' - it))) := by
  obtain ⟨lead, hl, h0, it2, hs, hit', hv, ho⟩ := vn_ok_inv h
  have hlead256 : lead < 256 := byte_lt h256 hl
  have hL4 := seq_len_le_4 lead
  rcases (by omega : sequence_length lead = 1 ∨ sequence_length lead = 2 ∨
      sequence_length lead = 3 ∨ sequence_length lead = 4) with hL | hL | hL | hL
  · rw [hL] at hs ho
    have hs' : get_sequence_1 buf e it 0 = some (UTF8_OK, it2, cp) := by
      simpa [get_sequence] using hs
    obtain ⟨hit2, hne, b0, hb0, hcp⟩ := g1_inv hs'
    rw [hl] at hb0
    obtain rfl := (Option.some.inj hb0).symm
    have hm : mask8 b0 = b0 := by rw [mask8_eq]; omega
    rw [hm] at hcp
    have h80 : b0 < 0x80 := (seq_len_char b0 hlead256).1.mp hL
    refine ⟨by omega, by omega, hv, fun out => ?_⟩
    rw [show it' - it = 1 by omega, slice_one hl, hcp]
    exact append_eq_1 h80 out
  · rw [hL] at hs ho
    have hs' : get_sequence_2 buf e it 0 = some (UTF8_OK, it2, cp) := by
      simpa [get_sequence] using hs
    obtain ⟨hit2, hne, hne1, b0, b1, hb0, hb1, ht1, hcp⟩ := g2_inv hs'
    rw [hl] at hb0
    obtain rfl := (Option.some.inj hb0).symm
    have hb1_256 : b1 < 256 := byte_lt h256 hb1
    have hrange0 : 0xc0 ≤ b0 ∧ b0 ≤ 0xdf := (seq_len_char b0 hlead256).2.1.mp hL
    have hrange1 : 0x80 ≤ b1 ∧ b1 ≤ 0xbf := (is_trail_char b1 hb1_256).mp ht1
    rw [mask8_eq, shl6, and_7ff, and_3f] at hcp
    have hge : 0x80 ≤ cp := ov2 ho
    have hlt800 : cp < 0x800 := by omega
    refine ⟨by omega, by omega, hv, fun out => ?_⟩
    rw [show it' - it = 2 by omega, slice_two hl hb1]
    rw [append_eq_2 hge hlt800 out]
    rw [show 0xc0 + cp / 64 = b0 by omega, show 0x80 + cp % 64 = b1 by omega]
  · rw [hL] at hs ho
    have hs' : get_sequence_3 buf e it 0 = some (UTF8_OK, it2, cp) := by
      simpa [get_sequence] using hs
    obtain ⟨hit2, hne, hne1, hne2, b0, b1, b2, hb0, hb1, hb2, ht1, ht2, hcp⟩ := g3_inv hs'
    rw [hl] at hb0
    obtain rfl := (Option.some.inj hb0).symm
    have hb1_256 : b1 < 256 := byte_lt h256 hb1
    have hb2_256 : b2 < 256 := byte_lt h256 hb2
    have hrange0 : 0xe0 ≤ b0 ∧ b0 ≤ 0xef := (seq_len_char b0 hlead256).2.2.1.mp hL
    have hrange1 : 0x80 ≤ b1 ∧ b1 ≤ 0xbf := (is_trail_char b1 hb1_256).mp ht1
    have hrange2 : 0x80 ≤ b2 ∧ b2 ≤ 0xbf := (is_trail_char b2 hb2_256).mp ht2
    rw [mask8_eq, mask8_eq, shl12, shl6, and_ffff, and_fff, and_3f] at hcp
    have hge : 0x800 ≤ cp := ov3 ho
    have hlt10000 : cp < 0x10000 := by omega
    refine ⟨by omega, by omega, hv, fun out => ?_⟩
    rw [show it' - it = 3 by omega, slice_three hl hb1 hb2]
    rw [append_eq_3 hge hlt10000 hv out]
    rw [show 0xe0 + cp / 4096 = b0 by omega, show 0x80 + cp / 64 % 64 = b1 by omega,
      show 0x80 + cp % 64 = b2 by omega]
  · rw [hL] at hs ho
    have hs' : get_sequence_4 buf e it 0 = some (UTF8_OK, it2, cp) := by
      simpa [get_sequence] using hs
    obtain ⟨hit2, hne, hne1, hne2, hne3, b0, b1, b2, b3, hb0, hb1, hb2, hb3,
      ht1, ht2, ht3, hcp⟩ := g4_inv hs'
    rw [hl] at hb0
    obtain rfl := (Option.some.inj hb0).symm
    have hb1_256 : b1 < 256 := byte_lt h256 hb1
    have hb2_256 : b2 < 256 := byte_lt h256 hb2
    have hb3_256 : b3 < 256 := byte_lt h256 hb3
    have hrange0 : 0xf0 ≤ b0 ∧ b0 ≤ 0xf7 := (seq_len_char b0 hlead256).2.2.2.mp hL
    have hrange1 : 0x80 ≤ b1 ∧ b1 ≤ 0xbf := (is_trail_char b1 hb1_256).mp ht1
    have hrange2 : 0x80 ≤ b2 ∧ b2 ≤ 0xbf := (is_trail_char b2 hb2_256).mp ht2
    have hrange3 : 0x80 ≤ b3 ∧ b3 ≤ 0xbf := (is_trail_char b3 hb3_256).mp ht3
    rw [mask8_eq, mask8_eq, mask8_eq, shl18, shl12, shl6, and_1fffff, and_3ffff,
      and_fff, and_3f] at hcp
    have hge : 0x10000 ≤ cp := ov4 ho
    have hle' : cp ≤ 0x10ffff := ((is_code_point_valid_iff cp).mp hv).1
    refine ⟨by omega, by omega, hv, fun out => ?_⟩
    rw [show it' - it = 4 by omega, slice_four hl hb1 hb2 hb3]
    rw [append_eq_4 hge hle' out]
    rw [show 0xf0 + cp / 262144 = b0 by omega, show 0x80 + cp / 4096 % 64 = b1 by omega,
      show 0x80 + cp / 64 % 64 = b2 by omega, show 0x80 + cp % 64 = b3 by omega]

/-- C1: for every valid code point, the checked decoder applied to the
bytes produced by `append(cp)` succeeds, yields exactly `cp`, and consumes
exactly the minimal number of bytes for the code point's magnitude. -/
theorem append_validate_next_roundtrip (cp : Nat) (h : is_code_point_valid cp = true) :
    ∃ bs : List Nat, append cp [] = .ok bs ∧
      bs.length = (if cp < 0x80 then 1 else if cp < 0x800 then 2
                   else if cp < 0x10000 then 3 else 4) ∧
      validate_next bs bs.length 0 0 = some (UTF8_OK, bs.length, cp) ∧
      next bs bs.length 0 = some (.ok (cp, bs.length)) := by
  have hrange := (is_code_point_valid_iff cp).mp h
  rcases (by omega : cp < 0x80 ∨ (0x80 ≤ cp ∧ cp < 0x800) ∨ (0x800 ≤ cp ∧ cp < 0x10000) ∨
      0x10000 ≤ cp) with h1 | ⟨h1, h2⟩ | ⟨h1, h2⟩ | h1
  · refine ⟨[cp], by simpa using append_eq_1 h1 [], by simp [h1], ?_⟩
    have hm : mask8 cp = cp := by rw [mask8_eq]; omega
    have hvn := @decode_1 cp ((seq_len_char cp (by omega)).1.mpr h1)
      (by rw [hm]; exact h) (by rw [hm]; simp [is_overlong_sequence, h1])
    rw [hm] at hvn
    refine ⟨by simpa using hvn, ?_⟩
    simp only [List.length_singleton]
    rw [next, hvn]
  · refine ⟨[0xc0 + cp / 64, 0x80 + cp % 64], by simpa using append_eq_2 h1 h2 [],
      by simp [show ¬(cp < 0x80) by omega, h2], ?_⟩
    have hC : ((mask8 (0xc0 + cp / 64) <<< 6) &&& 0x7ff) + ((0x80 + cp % 64) &&& 0x3f)
        = cp := by
      rw [mask8_eq, shl6, and_7ff, and_3f]; omega
    have hvn := @decode_2 (0xc0 + cp / 64) (0x80 + cp % 64)
      ((seq_len_char _ (by omega)).2.1.mpr ⟨by omega, by omega⟩)
      ((is_trail_char _ (by omega)).mpr ⟨by omega, by omega⟩)
      (by rw [hC]; exact h)
      (by rw [hC]; simp [is_overlong_sequence, show ¬(cp < 0x80) by omega, h2])
    rw [hC] at hvn
    refine ⟨by simpa using hvn, ?_⟩
    show next _ 2 0 = some (Except.ok (cp, 2))
    rw [next, hvn]
  · refine ⟨[0xe0 + cp / 4096, 0x80 + cp / 64 % 64, 0x80 + cp % 64],
      by simpa using append_eq_3 h1 h2 h [],
      by simp [show ¬(cp < 0x80) by omega, show ¬(cp < 0x800) by omega, h2], ?_⟩
    have hC : ((mask8 (0xe0 + cp / 4096) <<< 12) &&& 0xffff)
        + ((mask8 (0x80 + cp / 64 % 64) <<< 6) &&& 0xfff) + ((0x80 + cp % 64) &&& 0x3f)
        = cp := by
      rw [mask8_eq, mask8_eq, shl12, shl6, and_ffff, and_fff, and_3f]; omega
    have hvn := @decode_3 (0xe0 + cp / 4096) (0x80 + cp / 64 % 64) (0x80 + cp % 64)
      ((seq_len_char _ (by omega)).2.2.1.mpr ⟨by omega, by omega⟩)
      ((is_trail_char _ (by omega)).mpr ⟨by omega, by omega⟩)
      ((is_trail_char _ (by omega)).mpr ⟨by omega, by omega⟩)
      (by rw [hC]; exact h)
      (by rw [hC]
          simp [is_overlong_sequence, show ¬(cp < 0x80) by omega,
            show ¬(cp < 0x800) by omega, h2])
    rw [hC] at hvn
    refine ⟨by simpa using hvn, ?_⟩
    show next _ 3 0 = some (Except.ok (cp, 3))
    rw [next, hvn]
  · refine ⟨[0xf0 + cp / 262144, 0x80 + cp / 4096 % 64, 0x80 + cp / 64 % 64, 0x80 + cp % 64],
      by simpa using append_eq_4 h1 (by omega) [],
      by simp [show ¬(cp < 0x80) by omega, show ¬(cp < 0x800) by omega,
        show ¬(cp < 0x10000) by omega], ?_⟩
    have hC : ((mask8 (0xf0 + cp / 262144) <<< 18) &&& 0x1fffff)
        + ((mask8 (0x80 + cp / 4096 % 64) <<< 12) &&& 0x3ffff)
        + ((mask8 (0x80 + cp / 64 % 64) <<< 6) &&& 0xfff) + ((0x80 + cp % 64) &&& 0x3f)
        = cp := by
      rw [mask8_eq, mask8_eq, mask8_eq, shl18, shl12, shl6, and_1fffff, and_3ffff,
        and_fff, and_3f]
      omega
    have hvn := @decode_4 (0xf0 + cp / 262144) (0x80 + cp / 4096 % 64)
      (0x80 + cp / 64 % 64) (0x80 + cp % 64)
      ((seq_len_char _ (by omega)).2.2.2.mpr ⟨by omega, by omega⟩)
      ((is_trail_char _ (by omega)).mpr ⟨by omega, by omega⟩)
      ((is_trail_char _ (by omega)).mpr ⟨by omega, by omega⟩)
      ((is_trail_char _ (by omega)).mpr ⟨by omega, by omega⟩)
      (by rw [hC]; exact h)
      (by rw [hC]
          simp [is_overlong_sequence, show ¬(cp < 0x80) by omega,
            show ¬(cp < 0x800) by omega, show ¬(cp < 0x10000) by omega])
    rw [hC] at hvn
    refine ⟨by simpa using hvn, ?_⟩
    show next _ 4 0 = some (Except.ok (cp, 4))
    rw [next, hvn]

theorem append_validate_next_roundtrip_witness :
    is_code_point_valid 0x10437 = true ∧
    (∃ bs : List Nat, append 0x10437 [] = .ok bs ∧
      bs.length = (if (0x10437 : Nat) < 0x80 then 1 else if (0x10437 : Nat) < 0x800 then 2
                   else if (0x10437 : Nat) < 0x10000 then 3 else 4) ∧
      validate_next bs bs.length 0 0 = some (UTF8_OK, bs.length, 0x10437) ∧
      next bs bs.length 0 = some (.ok (0x10437, bs.length))) :=
  ⟨by decide, append_validate_next_roundtrip 0x10437 (by decide)⟩

/-! ### Surrogate pair algebra and the UTF-16 round trip -/

theorem SURROGATE_OFFSET_eq : SURROGATE_OFFSET = 0xfca02400 := by decide

theorem LEAD_OFFSET_eq : LEAD_OFFSET = 0xd7c0 := by decide

theorem surr_pair {c : Nat} (h1 : 0xffff < c) (h2 : c ≤ 0x10ffff) :
    is_lead_surrogate (mask16 (((c >>> 10) + LEAD_OFFSET) % 65536)) = true ∧
    is_trail_surrogate (mask16 (((c &&& 0x3ff) + TRAIL_SURROGATE_MIN) % 65536)) = true ∧
    ((mask16 (((c >>> 10) + LEAD_OFFSET) % 65536) <<< 10)
        + mask16 (((c &&& 0x3ff) + TRAIL_SURROGATE_MIN) % 65536) + SURROGATE_OFFSET) % 2 ^ 32
      = c := by
  rw [LEAD_OFFSET_eq, SURROGATE_OFFSET_eq]
  have hu1 : ((c >>> 10) + 0xd7c0) % 65536 = 0xd7c0 + c / 1024 := by
    rw [shr10]; omega
  have hu2 : ((c &&& 0x3ff) + TRAIL_SURROGATE_MIN) % 65536 = 0xdc00 + c % 1024 := by
    rw [and_3ff, TRAIL_SURROGATE_MIN]; omega
  rw [hu1, hu2]
  have hm1 : mask16 (0xd7c0 + c / 1024) = 0xd7c0 + c / 1024 := by rw [mask16_eq]; omega
  have hm2 : mask16 (0xdc00 + c % 1024) = 0xdc00 + c % 1024 := by rw [mask16_eq]; omega
  rw [hm1, hm2]
  refine ⟨?_, ?_, ?_⟩
  · simp only [is_lead_surrogate, LEAD_SURROGATE_MIN, LEAD_SURROGATE_MAX,
      Bool.and_eq_true, decide_eq_true_eq]
    omega
  · simp only [is_trail_surrogate, TRAIL_SURROGATE_MIN, TRAIL_SURROGATE_MAX,
      Bool.and_eq_true, decide_eq_true_eq]
    omega
  · rw [shl10, show (2 : Nat) ^ 32 = 4294967296 by norm_num]
    omega

theorem slice_merge {buf : List Nat} {start s2 e : Nat} (h1 : start ≤ s2) (h2 : s2 ≤ e) :
    (buf.drop start).take (s2 - start) ++ (buf.drop s2).take (e - s2)
      = (buf.drop start).take (e - start) := by
  rw [show e - start = (s2 - start) + (e - s2) by omega, List.take_add]
  congr 2
  rw [List.drop_drop]
  congr 1
  omega

theorem not_surrogate_units {c : Nat} (hv : is_code_point_valid c = true) :
    is_lead_surrogate c = false ∧ is_trail_surrogate c = false := by
  have h := (is_code_point_valid_iff c).mp hv
  constructor
  · simp only [is_lead_surrogate, LEAD_SURROGATE_MIN, LEAD_SURROGATE_MAX,
      Bool.and_eq_false_iff, decide_eq_false_iff_not]
    omega
  · simp only [is_trail_surrogate, TRAIL_SURROGATE_MIN, TRAIL_SURROGATE_MAX,
      Bool.and_eq_false_iff, decide_eq_false_iff_not]
    omega

theorem rt_loop : ∀ (n : Nat) (buf : List Nat) (e start : Nat),
    e - start < n → start ≤ e → e ≤ buf.length → (∀ b ∈ buf, b < 256) →
    find_invalid_loop n buf e start = some e →
    ∀ acc, ∃ tail, utf8to16_loop n buf e start acc = some (.ok (acc ++ tail)) ∧
      ∀ pre : List Nat, ∀ fuel, tail.length < fuel → ∀ out8,
        utf16to8_loop fuel (pre ++ tail) (pre ++ tail).length pre.length out8
          = some (.ok (out8 ++ (buf.drop start).take (e - start))) := by
  intro n
  induction n with
  | zero =>
    intro buf e start hn hle hlen h256 hf acc
    exact absurd hn (by omega)
  | succ n ih =>
    intro buf e start hn hle hlen h256 hf acc
    by_cases hse : start = e
    · subst hse
      refine ⟨[], by rw [utf8to16_loop]; simp, ?_⟩
      intro pre fuel hfu out8
      obtain ⟨f, rfl⟩ : ∃ f, fuel = f + 1 := ⟨fuel - 1, by omega⟩
      rw [utf16to8_loop]
      simp [Nat.sub_self]
    · rw [find_invalid_loop, if_neg hse] at hf
      cases hv2 : validate_next2 buf e start with
      | none => simp [hv2] at hf
      | some r =>
        obtain ⟨err, s2⟩ := r
        simp only [hv2] at hf
        split at hf
        · simp only [Option.some.injEq] at hf
          exact absurd hf hse
        · have herr : err = UTF8_OK := not_ne_iff.mp (by assumption)
          subst herr
          unfold validate_next2 at hv2
          cases hvn : validate_next buf e start 0 with
          | none => simp [hvn] at hv2
          | some r3 =>
            obtain ⟨er3, i3, c3⟩ := r3
            simp only [hvn, Option.some.injEq, Prod.mk.injEq] at hv2
            obtain ⟨her3, hi3⟩ := hv2
            subst her3
            subst hi3
            obtain ⟨hadv, hs2e, hcval, happ⟩ := vn_ok_main (by omega) hlen h256 hvn
            have hnext : next buf e start = some (.ok (c3, i3)) := by
              rw [next, hvn]
            have hih := ih buf e i3 (by omega) hs2e hlen h256 hf
            rw [utf8to16_loop, if_neg hse]
            simp only [hnext]
            by_cases hbig : c3 > 0xffff
            · rw [if_pos hbig]
              obtain ⟨tail, h16, h8⟩ := hih (acc ++ [((c3 >>> 10) + LEAD_OFFSET) % 65536,
                ((c3 &&& 0x3ff) + TRAIL_SURROGATE_MIN) % 65536])
              refine ⟨((c3 >>> 10) + LEAD_OFFSET) % 65536 ::
                ((c3 &&& 0x3ff) + TRAIL_SURROGATE_MIN) % 65536 :: tail,
                by rw [h16]; simp, ?_⟩
              intro pre fuel hfu out8
              obtain ⟨f, rfl⟩ : ∃ f, fuel = f + 1 := ⟨fuel - 1, by omega⟩
              have hcle : c3 ≤ 0x10ffff := ((is_code_point_valid_iff c3).mp hcval).1
              obtain ⟨hls, hts, hcomb⟩ := surr_pair hbig hcle
              set u1 := ((c3 >>> 10) + LEAD_OFFSET) % 65536 with hu1
              set u2 := ((c3 &&& 0x3ff) + TRAIL_SURROGATE_MIN) % 65536 with hu2
              have hlen16 : (pre ++ u1 :: u2 :: tail).length
                  = pre.length + (tail.length + 2) := by simp
              have hPne : ¬(pre.length = (pre ++ u1 :: u2 :: tail).length) := by
                rw [hlen16]; omega
              have hread1 : (pre ++ u1 :: u2 :: tail)[pre.length]? = some u1 := by
                rw [List.getElem?_append_right (le_refl pre.length)]
                simp
              have hread2 : (pre ++ u1 :: u2 :: tail)[pre.length + 1]? = some u2 := by
                rw [List.getElem?_append_right (by omega : pre.length ≤ pre.length + 1)]
                simp [Nat.add_sub_cancel_left]
              have hne2 : pre.length + 1 ≠ (pre ++ u1 :: u2 :: tail).length := by
                rw [hlen16]; omega
              have hbody : utf16to8_body (pre ++ u1 :: u2 :: tail)
                  (pre ++ u1 :: u2 :: tail).length pre.length out8
                  = some (.ok (pre.length + 2,
                      out8 ++ (buf.drop start).take (i3 - start))) := by
                simp only [utf16to8_body, hread1, hread2, hls, hts, if_true, hne2,
                  ne_eq, not_false_iff, ite_true, hcomb, happ out8]
              rw [utf16to8_loop, if_neg hPne]
              simp only [hbody]
              have hIH := h8 (pre ++ [u1, u2]) f
                (by simp only [List.length_cons] at hfu; omega)
                (out8 ++ (buf.drop start).take (i3 - start))
              have hshape : (pre ++ [u1, u2]) ++ tail = pre ++ u1 :: u2 :: tail := by simp
              rw [hshape] at hIH
              have hplen : (pre ++ [u1, u2]).length = pre.length + 2 := by simp
              rw [hplen] at hIH
              rw [List.append_assoc, slice_merge (by omega) hs2e] at hIH
              exact hIH
            · rw [if_neg hbig]
              obtain ⟨tail, h16, h8⟩ := hih (acc ++ [c3 % 65536])
              have hsm : c3 % 65536 = c3 := Nat.mod_eq_of_lt (by omega)
              rw [hsm] at h16
              refine ⟨c3 :: tail, by rw [hsm, h16]; simp, ?_⟩
              intro pre fuel hfu out8
              obtain ⟨f, rfl⟩ : ∃ f, fuel = f + 1 := ⟨fuel - 1, by omega⟩
              have hm16 : mask16 c3 = c3 := by rw [mask16_eq]; omega
              obtain ⟨hls, hts⟩ := not_surrogate_units hcval
              have hlen16 : (pre ++ c3 :: tail).length = pre.length + (tail.length + 1) := by
                simp
              have hPne : ¬(pre.length = (pre ++ c3 :: tail).length) := by
                rw [hlen16]; omega
              have hread1 : (pre ++ c3 :: tail)[pre.length]? = some c3 := by
                rw [List.getElem?_append_right (le_refl pre.length)]
                simp
              have hbody : utf16to8_body (pre ++ c3 :: tail)
                  (pre ++ c3 :: tail).length pre.length out8
                  = some (.ok (pre.length + 1,
                      out8 ++ (buf.drop start).take (i3 - start))) := by
                simp only [utf16to8_body, hread1, hm16, hls, hts, Bool.false_eq_true,
                  if_false, happ out8]
              rw [utf16to8_loop, if_neg hPne]
              simp only [hbody]
              have hIH := h8 (pre ++ [c3]) f
                (by simp only [List.length_cons] at hfu; omega)
                (out8 ++ (buf.drop start).take (i3 - start))
              have hshape : (pre ++ [c3]) ++ tail = pre ++ c3 :: tail := by simp
              rw [hshape] at hIH
              have hplen : (pre ++ [c3]).length = pre.length + 1 := by simp
              rw [hplen] at hIH
              rw [List.append_assoc, slice_merge (by omega) hs2e] at hIH
              exact hIH

/-- C7: for every well-formed UTF-8 buffer, `utf8to16` followed by
`utf16to8` reproduces the original byte sequence exactly; each code point
above `0xFFFF` is split into a lead/trail surrogate pair and reassembled
to the same code point. -/
theorem utf8to16_utf16to8_roundtrip (buf : List Nat) (h256 : ∀ b ∈ buf, b < 256)
    (hv : is_valid buf buf.length 0 = some true) :
    ∃ w16, utf8to16 buf buf.length 0 [] = some (.ok w16) ∧
      utf16to8 w16 w16.length 0 [] = some (.ok buf) := by
  have hfi : find_invalid buf buf.length 0 = some buf.length := by
    unfold is_valid at hv
    cases hf : find_invalid buf buf.length 0 with
    | none => rw [hf] at hv; cases hv
    | some r =>
      rw [hf] at hv
      simp only [Option.map_some', Option.some.injEq, beq_iff_eq] at hv
      rw [hv]
  unfold find_invalid at hfi
  obtain ⟨tail, h16, h8⟩ := rt_loop (buf.length - 0 + 1) buf buf.length 0 (by omega)
    (by omega) (le_refl _) h256 hfi []
  refine ⟨tail, ?_, ?_⟩
  · unfold utf8to16
    simpa using h16
  · unfold utf16to8
    have := h8 [] (tail.length - 0 + 1) (by omega) []
    simpa using this

theorem utf8to16_utf16to8_roundtrip_witness :
    (∀ b ∈ [0x48, 0xf0, 0x90, 0x90, 0xb7], b < 256) ∧
    (∃ w16, utf8to16 [0x48, 0xf0, 0x90, 0x90, 0xb7] 5 0 [] = some (.ok w16) ∧
      utf16to8 w16 w16.length 0 [] = some (.ok [0x48, 0xf0, 0x90, 0x90, 0xb7])) :=
  by
  refine ⟨by decide, ?_⟩
  have h := utf8to16_utf16to8_roundtrip [0x48, 0xf0, 0x90, 0x90, 0xb7] (by decide) (by rfl)
  simpa using h

end utf8
